import Mathlib

/-!
Verification of the `extract-variant` procedural-macro crate.

The development shallowly embeds the compiled crate (`src/lib.rs`): the
token-level attribute parsers (`impl Parse for ExtractVariant`,
`impl Parse for VariantOf`, `impl Parse for VariantAttrs`), the struct
generator `generate_variant`, the conversion generator `impl_variant`, and
the two attribute-macro entry points `extract_variant` and `variant_of`.
The runtime meaning of the generated `From`/`TryFrom` implementations is
embedded as executable functions over values of the enum and of the
generated record ( `VariantImpls.fromFn` and `VariantImpls.tryFromFn`).

Note that the repository also contains `src/extract_variant.rs` and
`src/variant_of.rs`; these are a disabled prototype: `lib.rs` declares no
`mod` for them, so they are not part of the compiled crate.  The embedding
below follows the compiled code in `lib.rs`.
-/

/-- A source position anchor, modelling `proc_macro2::Span`.  Spans have no
observable content besides their identity, which we model with a number. -/
structure Span where
  id : Nat
  deriving DecidableEq

/-- `proc_macro2::Ident`: a name together with its span. -/
structure Ident where
  name : String
  span : Span
  deriving DecidableEq

/-- Group delimiters of a token tree. -/
inductive Delim where
  | paren
  | bracket
  | brace
  deriving DecidableEq

/-- A `proc_macro2` token tree: identifier, punctuation character, literal,
or a delimited group of token trees. -/
inductive Tok where
  | ident (i : Ident)
  | punct (c : Char)
  | lit (s : String)
  | group (d : Delim) (ts : List Tok)

/-- `syn::Visibility`, restricted to the forms that occur in this crate. -/
inductive Visibility where
  | pub
  | inherited
  deriving DecidableEq

/-- A `syn::Attribute`: a simple path and the raw argument tokens
(including the delimiter group, as in `Attribute::tokens` of syn 1.x). -/
structure Attribute where
  path : List String
  tokens : List Tok

/-- A `syn::Field`: optional name (present for named fields), visibility
and the field's type, kept as text. -/
structure StructField where
  vis : Visibility
  ident : Option Ident
  ty : String

/-- `syn::Fields`: the three structural shapes of a variant or struct. -/
inductive Fields where
  | named (fs : List StructField)
  | unnamed (fs : List StructField)
  | unit

/-- `syn::Variant`: one enum case. -/
structure Variant where
  attrs : List Attribute
  ident : Ident
  fields : Fields

/-- `syn::ItemEnum`, restricted to the parts the macro reads.
`hasGenerics` models `generics.lt_token.is_some()`. -/
structure ItemEnum where
  attrs : List Attribute
  vis : Visibility
  ident : Ident
  hasGenerics : Bool
  variants : List Variant

/-- `syn::ItemStruct`, restricted to the parts the macro writes/reads. -/
structure ItemStruct where
  attrs : List Attribute
  vis : Visibility
  ident : Ident
  fields : Fields

/-- The configuration record parsed from the `extract_variant` attribute
arguments (struct `ExtractVariant` in the source).  `pfx`/`sfx` model the
source fields `prefix`/`suffix`. -/
structure ExtractVariant where
  pfx : Option Ident
  sfx : Option Ident
  no_impl : Bool
  deriving DecidableEq

/-- `ExtractVariant::default()`. -/
def defaultEV : ExtractVariant :=
  ⟨none, none, false⟩

/-- The configuration parsed from the `variant_of` attribute arguments
(struct `VariantOf` in the source). -/
structure VariantOf where
  enumPath : List String
  variantName : Option Ident
  deriving DecidableEq

/-- `inner_content.parse::<Ident>()` on the content of a parenthesized
group, followed by syn's trailing-token check on that buffer: the content
must be exactly one identifier. -/
def parseInnerIdent : List Tok → Except String Ident
  | [Tok.ident a] => Except.ok a
  | Tok.ident _ :: _ :: _ => Except.error ("unexpected token")
  | _ => Except.error ("expected identifier")

/-- The loop body of `impl Parse for ExtractVariant`: repeatedly parse an
identifier and dispatch on its text; `prefix`/`suffix` additionally consume
a parenthesized identifier argument; no separator token is ever consumed. -/
def parseEVLoop : List Tok → ExtractVariant → Except String ExtractVariant
  | [], cfg => Except.ok cfg
  | Tok.ident i :: rest, cfg =>
    if i.name = "prefix" then
      match rest with
      | Tok.group Delim.paren inner :: rest2 =>
        match parseInnerIdent inner with
        | Except.ok a => parseEVLoop rest2 { cfg with pfx := some a }
        | Except.error e => Except.error e
      | _ => Except.error ("expected parentheses")
    else if i.name = "suffix" then
      match rest with
      | Tok.group Delim.paren inner :: rest2 =>
        match parseInnerIdent inner with
        | Except.ok a => parseEVLoop rest2 { cfg with sfx := some a }
        | Except.error e => Except.error e
      | _ => Except.error ("expected parentheses")
    else if i.name = "no_impl" then
      parseEVLoop rest { cfg with no_impl := true }
    else Except.error ("invalid parameter name")
  | _ :: _, _ => Except.error ("expected identifier")

/-- `syn::parse::<ExtractVariant>` as invoked by `parse_macro_input!` on
the attribute argument tokens: the `Parse` implementation peeks for a
parenthesized group (returning the default configuration when there is
none) and the wrapper then rejects any unconsumed tokens. -/
def parseExtractVariant : List Tok → Except String ExtractVariant
  | [] => Except.ok defaultEV
  | Tok.group Delim.paren inner :: rest =>
    match parseEVLoop inner defaultEV with
    | Except.ok cfg => if rest.isEmpty then Except.ok cfg else Except.error ("unexpected token")
    | Except.error e => Except.error e
  | _ :: _ => Except.error ("unexpected token")

/-- The trailing-segments loop of `syn::Path` parsing: consume `:: ident`
pairs while present. -/
def pathSegsLoop (acc : List String) : List Tok → (List String × List Tok)
  | Tok.punct ':' :: Tok.punct ':' :: Tok.ident i :: rest =>
    pathSegsLoop (acc ++ [i.name]) rest
  | rest => (acc, rest)

/-- `content.parse::<Path>()`: at least one identifier segment, then any
number of `:: ident` continuations. -/
def parsePathToks : List Tok → Except String (List String × List Tok)
  | Tok.ident i :: rest => Except.ok (pathSegsLoop [i.name] rest)
  | _ => Except.error ("expected identifier")

/-- The body of `impl Parse for VariantOf` after `parenthesized!`:
a path, then a mandatory comma, then an optional identifier, then syn's
trailing-token check. -/
def parseVariantOfInner (inner : List Tok) : Except String VariantOf :=
  match parsePathToks inner with
  | Except.error e => Except.error e
  | Except.ok (p, rest) =>
    match rest with
    | Tok.punct ',' :: Tok.ident v :: rest3 =>
      if rest3.isEmpty then Except.ok ⟨p, some v⟩ else Except.error ("unexpected token")
    | [Tok.punct ','] => Except.ok ⟨p, none⟩
    | Tok.punct ',' :: _ :: _ => Except.error ("unexpected token")
    | _ => Except.error ("expected comma")

/-- `syn::parse::<VariantOf>` as invoked by `parse_macro_input!` on the
attribute argument tokens: `parenthesized!` demands that the input start
with a parenthesized group. -/
def parseVariantOf : List Tok → Except String VariantOf
  | Tok.group Delim.paren inner :: rest =>
    match parseVariantOfInner inner with
    | Except.error e => Except.error e
    | Except.ok vo => if rest.isEmpty then Except.ok vo else Except.error ("unexpected token")
  | _ => Except.error ("expected parentheses")

/-- One attribute inside an `Attribute::parse_outer` call: the simple path
followed by the raw remaining tokens (cf. `syn::Attribute`). -/
def parseAttrInner (inner : List Tok) : Except String Attribute :=
  match parsePathToks inner with
  | Except.error e => Except.error e
  | Except.ok (p, rest) => Except.ok ⟨p, rest⟩

/-- `Attribute::parse_outer`: a sequence of `# [ ... ]` attributes. -/
def parseOuterAttrs : List Tok → Except String (List Attribute)
  | [] => Except.ok []
  | Tok.punct '#' :: Tok.group Delim.bracket inner :: rest =>
    match parseAttrInner inner with
    | Except.error e => Except.error e
    | Except.ok a =>
      match parseOuterAttrs rest with
      | Except.error e => Except.error e
      | Except.ok as => Except.ok (a :: as)
  | _ => Except.error ("expected attribute")

/-- `Attribute::parse_args::<VariantAttrs>` applied to an attribute's raw
tokens: syn strips the attribute's own delimiter, then
`impl Parse for VariantAttrs` demands another parenthesized group whose
content is parsed with `Attribute::parse_outer`. -/
def parseArgsVariantAttrs : List Tok → Except String (List Attribute)
  | [Tok.group Delim.paren args] =>
    match args with
    | Tok.group Delim.paren inner :: rest =>
      match parseOuterAttrs inner with
      | Except.error e => Except.error e
      | Except.ok as => if rest.isEmpty then Except.ok as else Except.error ("unexpected token")
    | _ => Except.error ("expected parentheses")
  | _ => Except.error ("expected attribute arguments in parentheses")

/-- `generate_variant` from the source: builds the struct for one variant.
The attributes are `variant.attrs.clone()`, the visibility is the enum's,
the identifier is `Ident::new(name, variant.ident.span())`, and the fields
are `variant.fields.clone()`. -/
def generate_variant (name : String) (item_enum : ItemEnum) (variant : Variant) : ItemStruct :=
  { attrs := variant.attrs
  , vis := item_enum.vis
  , ident := ⟨name, variant.ident.span⟩
  , fields := variant.fields }

/-- The shape of the `free`/`tied` patterns built by `impl_variant`. -/
inductive PatKind where
  | unitK
  | tupleK
  | structK
  deriving DecidableEq

/-- `f.ident.as_ref().unwrap()` for a named field (named fields always
carry an identifier; the `none` branch is the model of the `unwrap`). -/
def fieldName (f : StructField) : String :=
  match f.ident with
  | some i => i.name
  | none => ""

/-- The binder list of the `free`/`tied` patterns of `impl_variant`:
field names for named fields, `_0, _1, …` for unnamed fields, nothing for
a unit shape. -/
def fieldsBinders : Fields → List String
  | Fields.named fs => fs.map fieldName
  | Fields.unnamed fs => (List.range fs.length).map (fun i => "_" ++ toString i)
  | Fields.unit => []

/-- The pattern shape corresponding to a `Fields` value. -/
def fieldsKind : Fields → PatKind
  | Fields.named _ => PatKind.structK
  | Fields.unnamed _ => PatKind.tupleK
  | Fields.unit => PatKind.unitK

/-- The output of `impl_variant`: the `From`, `TryFrom` and
`variant_traits::Variant` implementations for one (record, enum path,
variant name) triple, recorded with the pattern data the source computes
from the struct's fields. -/
structure VariantImpls where
  strctIdent : Ident
  enumPath : List String
  variantIdent : Ident
  kind : PatKind
  binders : List String

/-- `impl_variant` from the source: the variant name defaults to the
struct's own identifier (`variant_name.as_ref().unwrap_or(&strct.ident)`),
and the `free`/`tied` patterns are computed from the struct's fields. -/
def impl_variant (strct : ItemStruct) (enumPath : List String) (variantName : Option Ident) :
    VariantImpls :=
  { strctIdent := strct.ident
  , enumPath := enumPath
  , variantIdent := variantName.getD strct.ident
  , kind := fieldsKind strct.fields
  , binders := fieldsBinders strct.fields }

/-- One item of the token stream a macro entry point returns. -/
inductive OutItem where
  | enumOut (e : ItemEnum)
  | structOut (s : ItemStruct)
  | implsOut (vi : VariantImpls)
  | errorOut (msg : String)

/-- The structs contained in a macro output. -/
def outStructs (items : List OutItem) : List ItemStruct :=
  items.filterMap fun it =>
    match it with
    | OutItem.structOut s => some s
    | _ => none

/-- The conversion-implementation blocks contained in a macro output. -/
def outImpls (items : List OutItem) : List VariantImpls :=
  items.filterMap fun it =>
    match it with
    | OutItem.implsOut vi => some vi
    | _ => none

/-- `variant.attrs.iter().find(|attr| attr.path.is_ident("variant_attrs"))`. -/
def findVariantAttrsAttr (v : Variant) : Option Attribute :=
  v.attrs.find? fun a => a.path == ["variant_attrs"]

/-- The prefix string of a parsed configuration:
`prefix.map(|id| id.to_string()).unwrap_or_default()`. -/
def pfxStr (cfg : ExtractVariant) : String :=
  match cfg.pfx with
  | some i => i.name
  | none => ""

/-- The suffix string of a parsed configuration. -/
def sfxStr (cfg : ExtractVariant) : String :=
  match cfg.sfx with
  | some i => i.name
  | none => ""

/-- The `variant_name` closure of `extract_variant`: `None` when both
prefix and suffix are empty, otherwise a fresh identifier made of
`format!("{}{}{}", prefix, variant.ident, suffix)` carrying
`variant.ident.span()`. -/
def mkVariantNameOpt (p s : String) (v : Variant) : Option Ident :=
  if p == "" && s == "" then none
  else some ⟨p ++ v.ident.name ++ s, v.ident.span⟩

/-- The per-variant body of the `extract_variant` iteration: generate the
struct, splice a parsed `variant_attrs` payload (a parse failure replaces
this variant's output by the error), then emit the struct alone when
`no_impl` is set and the struct plus its conversions otherwise. -/
def processVariant (cfg : ExtractVariant) (item_enum : ItemEnum) (p s : String)
    (enumPath : List String) (v : Variant) : List OutItem :=
  let strct := generate_variant (p ++ v.ident.name ++ s) item_enum v
  let strctRes : Except String ItemStruct :=
    match findVariantAttrsAttr v with
    | none => Except.ok strct
    | some a =>
      match parseArgsVariantAttrs a.tokens with
      | Except.error e => Except.error e
      | Except.ok extra => Except.ok { strct with attrs := strct.attrs ++ extra }
  match strctRes with
  | Except.error e => [OutItem.errorOut e]
  | Except.ok strct2 =>
    if cfg.no_impl = false then
      [OutItem.structOut strct2,
       OutItem.implsOut (impl_variant strct2 enumPath (mkVariantNameOpt p s v))]
    else
      [OutItem.structOut strct2]

/-- The `extract_variant` attribute macro: reject generic enums, parse the
attribute arguments, then fold the per-variant outputs onto the re-emitted
enum (`tss.fold(init, |acc, ts| quote! { #acc #ts })`). -/
def extract_variant (attrArgs : List Tok) (item_enum : ItemEnum) : List OutItem :=
  if item_enum.hasGenerics then
    [OutItem.errorOut ("`extract_variant` does not support generic parameters")]
  else
    match parseExtractVariant attrArgs with
    | Except.error e => [OutItem.errorOut e]
    | Except.ok cfg =>
      List.foldl
        (fun acc v =>
          acc ++ processVariant cfg item_enum (pfxStr cfg) (sfxStr cfg) [item_enum.ident.name] v)
        [OutItem.enumOut item_enum] item_enum.variants

/-- The `variant_of` attribute macro: parse the attribute arguments as a
`VariantOf` and emit the conversions for the given struct. -/
def variant_of (attrArgs : List Tok) (item_struct : ItemStruct) : List OutItem :=
  match parseVariantOf attrArgs with
  | Except.error e => [OutItem.errorOut e]
  | Except.ok vo => [OutItem.implsOut (impl_variant item_struct vo.enumPath vo.variantName)]

/-- A runtime payload of an enum variant or of a generated record:
no fields, positional fields, or named fields.  The value type `α` is
abstract — the macro never inspects field values. -/
inductive PayloadVal (α : Type) where
  | unitVal
  | tupleVal (vs : List α)
  | structVal (fs : List (String × α))

/-- A runtime value of the enum: the active variant's name and its
payload. -/
structure EnumVal (α : Type) where
  variant : String
  payload : PayloadVal α

/-- Lookup of a bound variable in an environment of bindings, by name. -/
def lookupEnv {α : Type} (k : String) : List (String × α) → Option α
  | [] => none
  | (k', v) :: rest => if k = k' then some v else lookupEnv k rest

/-- Map a partial function over a list, succeeding only when every element
succeeds. -/
def mapOpt {α β : Type} (f : α → Option β) : List α → Option (List β)
  | [] => some []
  | a :: as =>
    match f a, mapOpt f as with
    | some b, some bs => some (b :: bs)
    | _, _ => none

/-- Matching a payload against the pattern `impl_variant` emits: a unit
pattern matches a unit payload; a tuple pattern binds `_0, _1, …`
positionally; a struct pattern binds each listed field name (Rust demands
the pattern name every field, hence the length check).  On success the
result is the environment of variable bindings. -/
def matchPayload {α : Type} : PatKind → List String → PayloadVal α → Option (List (String × α))
  | PatKind.unitK, _, PayloadVal.unitVal => some []
  | PatKind.tupleK, bs, PayloadVal.tupleVal vs =>
    if bs.length = vs.length then some (bs.zip vs) else none
  | PatKind.structK, bs, PayloadVal.structVal pfs =>
    if pfs.length = bs.length then
      mapOpt (fun b => (lookupEnv b pfs).map (fun v => (b, v))) bs
    else none
  | _, _, _ => none

/-- Evaluating the constructor expression `impl_variant` emits, in an
environment of bindings: a unit expression, a tuple of the bound
variables in order, or named fields each set to its bound variable. -/
def buildPayload {α : Type} : PatKind → List String → List (String × α) → Option (PayloadVal α)
  | PatKind.unitK, _, _ => some PayloadVal.unitVal
  | PatKind.tupleK, bs, env => (mapOpt (fun b => lookupEnv b env) bs).map PayloadVal.tupleVal
  | PatKind.structK, bs, env =>
    (mapOpt (fun b => (lookupEnv b env).map (fun v => (b, v))) bs).map PayloadVal.structVal

/-- Destructure a payload with the `free`/`tied` pattern and rebuild it
with the identically-bound other pattern — the data flow of both generated
conversion bodies. -/
def convPayload {α : Type} (k : PatKind) (bs : List String) (p : PayloadVal α) :
    Option (PayloadVal α) :=
  (matchPayload k bs p).bind (buildPayload k bs)

/-- Semantics of the generated `impl From<Struct> for Enum`: destructure
the record with the `free` pattern and build `Self::tied`.  The result is
`none` only on a payload whose shape does not fit the struct's fields,
which a type-correct Rust program cannot pass. -/
def VariantImpls.fromFn {α : Type} (vi : VariantImpls) (r : PayloadVal α) : Option (EnumVal α) :=
  (convPayload vi.kind vi.binders r).map fun p => ⟨vi.variantIdent.name, p⟩

/-- Semantics of the generated `impl TryFrom<Enum> for Struct`:
`if let Enum::tied = value { Ok(free) } else { Err(value) }` — the pattern
matches exactly when the active variant is the target one, and the `else`
branch returns the scrutinee unchanged. -/
def VariantImpls.tryFromFn {α : Type} (vi : VariantImpls) (u : EnumVal α) :
    Except (EnumVal α) (PayloadVal α) :=
  if u.variant = vi.variantIdent.name then
    match convPayload vi.kind vi.binders u.payload with
    | some r => Except.ok r
    | none => Except.error u
  else Except.error u

/-- Whether an `Except` result is a success. -/
def exceptIsOk {ε β : Type} : Except ε β → Bool
  | Except.ok _ => true
  | Except.error _ => false

/-- A payload is well typed for a field shape when it has the same kind
and, for named fields, exactly the declared field names in declared order
(Rust's type system guarantees this for any value of the corresponding
type). -/
def wellTypedPayload {α : Type} : Fields → PayloadVal α → Bool
  | Fields.named fs, PayloadVal.structVal pfs =>
    decide (pfs.map Prod.fst = fs.map fieldName)
  | Fields.unnamed fs, PayloadVal.tupleVal vs => decide (vs.length = fs.length)
  | Fields.unit, PayloadVal.unitVal => true
  | _, _ => false

/-- Whether a variant's `variant_attrs` attribute (if any) parses. -/
def variantAttrsOk (v : Variant) : Bool :=
  match findVariantAttrsAttr v with
  | none => true
  | some a =>
    match parseArgsVariantAttrs a.tokens with
    | Except.ok _ => true
    | Except.error _ => false

/-- The struct `processVariant` emits for a variant whose `variant_attrs`
attribute (if any) parses. -/
def resolvedStruct (p s : String) (item_enum : ItemEnum) (v : Variant) : ItemStruct :=
  let strct := generate_variant (p ++ v.ident.name ++ s) item_enum v
  match findVariantAttrsAttr v with
  | none => strct
  | some a =>
    match parseArgsVariantAttrs a.tokens with
    | Except.error _ => strct
    | Except.ok extra => { strct with attrs := strct.attrs ++ extra }

/-- Concatenation of the per-element outputs, the list the macro's
`fold` accumulates after its initial element. -/
def concatMapL {α β : Type} (f : α → List β) : List α → List β
  | [] => []
  | a :: as => f a ++ concatMapL f as

/-- The key/argument forms recognized by `impl Parse for ExtractVariant`,
with the source spans of their tokens. -/
inductive KeySpec where
  | pfxK (kwSpan : Span) (arg : Ident)
  | sfxK (kwSpan : Span) (arg : Ident)
  | noImplK (kwSpan : Span)

/-- The token rendering of one recognized key. -/
def KeySpec.toks : KeySpec → List Tok
  | KeySpec.pfxK s a => [Tok.ident ⟨"prefix", s⟩, Tok.group Delim.paren [Tok.ident a]]
  | KeySpec.sfxK s a => [Tok.ident ⟨"suffix", s⟩, Tok.group Delim.paren [Tok.ident a]]
  | KeySpec.noImplK s => [Tok.ident ⟨"no_impl", s⟩]

/-- The effect of one recognized key on the configuration being built. -/
def applyKey (cfg : ExtractVariant) : KeySpec → ExtractVariant
  | KeySpec.pfxK _ a => { cfg with pfx := some a }
  | KeySpec.sfxK _ a => { cfg with sfx := some a }
  | KeySpec.noImplK _ => { cfg with no_impl := true }

/-- The visibilities of the fields of a shape, in order. -/
def fieldsVises : Fields → List Visibility
  | Fields.named fs => fs.map fun f => f.vis
  | Fields.unnamed fs => fs.map fun f => f.vis
  | Fields.unit => []

/-- Concrete input: the named-fields variant of the crate's own example
(`Variant3 { field1: bool, field2: f32 }`), as a generated record. -/
def strctV3 : ItemStruct :=
  ⟨[], Visibility.pub, ⟨"Variant3", ⟨103⟩⟩,
    Fields.named
      [⟨Visibility.inherited, some ⟨"field1", ⟨101⟩⟩, "bool"⟩,
       ⟨Visibility.inherited, some ⟨"field2", ⟨102⟩⟩, "f32"⟩]⟩

/-- Concrete input: a record value for `strctV3` with integer fields. -/
def rV3 : PayloadVal Int :=
  PayloadVal.structVal [("field1", 1), ("field2", 2)]

/-- Concrete input: an enum value whose active variant is not `Variant3`. -/
def uOther : EnumVal Int :=
  ⟨"Variant2", PayloadVal.tupleVal [5, 6]⟩

/-- Concrete input: a variant marked `#[exclude]`. -/
def v4ex : Variant :=
  ⟨[⟨["exclude"], []⟩], ⟨"Variant1", ⟨141⟩⟩, Fields.unit⟩

/-- Concrete input: a unions whose only alternative is marked `exclude`. -/
def e4ex : ItemEnum :=
  ⟨[], Visibility.pub, ⟨"MyEnum", ⟨140⟩⟩, false, [v4ex]⟩

/-- Concrete input: a variant with one named field. -/
def v5ex : Variant :=
  ⟨[], ⟨"Variant3", ⟨151⟩⟩,
    Fields.named [⟨Visibility.inherited, some ⟨"field1", ⟨152⟩⟩, "bool"⟩]⟩

/-- Concrete input: an enum holding `v5ex`. -/
def e5ex : ItemEnum :=
  ⟨[], Visibility.pub, ⟨"Enum5", ⟨150⟩⟩, false, [v5ex]⟩

/-- Concrete input: a variant carrying a documentation attribute and a
non-documentation attribute (`serde(default)`). -/
def v6ex : Variant :=
  ⟨[⟨["doc"], [Tok.punct '=', Tok.lit "docline"]⟩,
    ⟨["serde"], [Tok.group Delim.paren [Tok.ident ⟨"default", ⟨163⟩⟩]]⟩],
   ⟨"Variant1", ⟨161⟩⟩, Fields.unit⟩

/-- Concrete input: an enum with a top-level `#[derive(Debug)]` attribute
holding `v6ex`. -/
def e6ex : ItemEnum :=
  ⟨[⟨["derive"], [Tok.group Delim.paren [Tok.ident ⟨"Debug", ⟨162⟩⟩]]⟩],
   Visibility.pub, ⟨"MyEnum6", ⟨160⟩⟩, false, [v6ex]⟩

/-- Concrete input: the manually written struct of the crate's own
`variant_of` example (`struct Variant1(i32, String);`). -/
def strct7 : ItemStruct :=
  ⟨[], Visibility.pub, ⟨"Variant1", ⟨171⟩⟩,
    Fields.unnamed
      [⟨Visibility.inherited, none, "i32"⟩, ⟨Visibility.inherited, none, "String"⟩]⟩

/-- Concrete input: a two-variant enum for the suppression witness. -/
def e8ex : ItemEnum :=
  ⟨[], Visibility.pub, ⟨"Enum8", ⟨180⟩⟩, false,
    [⟨[], ⟨"VariantA", ⟨181⟩⟩, Fields.unit⟩,
     ⟨[], ⟨"VariantB", ⟨182⟩⟩,
       Fields.unnamed [⟨Visibility.inherited, none, "i32"⟩]⟩]⟩

/-- Concrete input: attribute argument tokens carrying `no_impl`. -/
def attrToks8 : List Tok :=
  [Tok.group Delim.paren [Tok.ident ⟨"no_impl", ⟨183⟩⟩]]

/-- Concrete input: a one-variant enum whose variant identifier carries
span 9. -/
def e9ex : ItemEnum :=
  ⟨[], Visibility.pub, ⟨"E9", ⟨90⟩⟩, false, [⟨[], ⟨"V", ⟨9⟩⟩, Fields.unit⟩]⟩

/-- Concrete input: attribute argument tokens carrying `prefix(Pre)`, with
every token anchored at span 5. -/
def attrToks9 : List Tok :=
  [Tok.group Delim.paren
    [Tok.ident ⟨"prefix", ⟨5⟩⟩, Tok.group Delim.paren [Tok.ident ⟨"Pre", ⟨5⟩⟩]]]

theorem mapOpt_congr {α β : Type} {f g : α → Option β} :
    ∀ {l : List α}, (∀ a ∈ l, f a = g a) → mapOpt f l = mapOpt g l
  | [], _ => rfl
  | a :: as, h => by
    have ha : f a = g a := h a (List.mem_cons_self a as)
    have hrest : mapOpt f as = mapOpt g as :=
      mapOpt_congr fun x hx => h x (List.mem_cons_of_mem a hx)
    simp [mapOpt, ha, hrest]

theorem lookupEnv_cons_ne {α : Type} {b k : String} {v : α} {rest : List (String × α)}
    (h : b ≠ k) : lookupEnv b ((k, v) :: rest) = lookupEnv b rest := by
  simp [lookupEnv, h]

theorem mapOpt_lookup_fst {α : Type} :
    ∀ pfs : List (String × α), (pfs.map Prod.fst).Nodup →
      mapOpt (fun b => (lookupEnv b pfs).map (fun v => (b, v))) (pfs.map Prod.fst) = some pfs
  | [], _ => rfl
  | (k, v) :: rest, h => by
    have h' := h
    rw [List.map_cons, List.nodup_cons] at h'
    have hk : k ∉ rest.map Prod.fst := h'.1
    have hcongr :
        mapOpt (fun b => (lookupEnv b ((k, v) :: rest)).map (fun w => (b, w)))
            (rest.map Prod.fst) =
          mapOpt (fun b => (lookupEnv b rest).map (fun w => (b, w))) (rest.map Prod.fst) := by
      refine mapOpt_congr fun b hb => ?_
      have hb' : b ≠ k := fun hbk => hk (hbk ▸ hb)
      rw [lookupEnv_cons_ne hb']
    have hrest := mapOpt_lookup_fst rest h'.2
    rw [List.map_cons]
    simp only [mapOpt]
    rw [hcongr, hrest]
    simp [lookupEnv]

theorem mapOpt_lookup_zip {α : Type} :
    ∀ (bs : List String) (vs : List α), bs.length = vs.length → bs.Nodup →
      mapOpt (fun b => lookupEnv b (bs.zip vs)) bs = some vs
  | [], [], _, _ => rfl
  | [], _ :: _, h, _ => by simp at h
  | _ :: _, [], h, _ => by simp at h
  | b :: bs, v :: vs, h, hnd => by
    rw [List.nodup_cons] at hnd
    have hlen : bs.length = vs.length := by simpa using h
    have hcongr :
        mapOpt (fun b' => lookupEnv b' ((b :: bs).zip (v :: vs))) bs =
          mapOpt (fun b' => lookupEnv b' (bs.zip vs)) bs := by
      refine mapOpt_congr fun b' hb' => ?_
      have hb'' : b' ≠ b := fun hbe => hnd.1 (hbe ▸ hb')
      simp only [List.zip_cons_cons]
      rw [lookupEnv_cons_ne hb'']
    have hrest := mapOpt_lookup_zip bs vs hlen hnd.2
    simp only [mapOpt]
    rw [hcongr, hrest]
    simp [lookupEnv]

/-- Core lemma: destructuring a well-typed payload with the generated
pattern and rebuilding it with the identically-bound pattern returns the
payload unchanged. -/
theorem convPayload_id {α : Type} (F : Fields) (p : PayloadVal α)
    (hnd : (fieldsBinders F).Nodup) (hwt : wellTypedPayload F p = true) :
    convPayload (fieldsKind F) (fieldsBinders F) p = some p := by
  cases F with
  | unit =>
    cases p <;> simp [wellTypedPayload] at hwt
    rfl
  | unnamed fs =>
    cases p with
    | tupleVal vs =>
      have hlen : vs.length = fs.length := by
        simpa [wellTypedPayload] using hwt
      have hblen : (fieldsBinders (Fields.unnamed fs)).length = vs.length := by
        simp [fieldsBinders, hlen]
      have hres := mapOpt_lookup_zip (fieldsBinders (Fields.unnamed fs)) vs hblen hnd
      simp only [convPayload, fieldsKind, matchPayload, buildPayload]
      rw [if_pos hblen, Option.some_bind, hres]
      rfl
    | unitVal => simp [wellTypedPayload] at hwt
    | structVal _ => simp [wellTypedPayload] at hwt
  | named fs =>
    cases p with
    | structVal pfs =>
      have hfst : pfs.map Prod.fst = fs.map fieldName := by
        simpa [wellTypedPayload] using hwt
      have hnd' : (pfs.map Prod.fst).Nodup := by
        rw [hfst]; simpa [fieldsBinders] using hnd
      have hres := mapOpt_lookup_fst pfs hnd'
      have hbind : fieldsBinders (Fields.named fs) = pfs.map Prod.fst := by
        simp only [fieldsBinders]
        rw [hfst]
      show convPayload (fieldsKind (Fields.named fs)) (fieldsBinders (Fields.named fs))
          (PayloadVal.structVal pfs) = some (PayloadVal.structVal pfs)
      rw [hbind]
      simp only [convPayload, fieldsKind, matchPayload, buildPayload]
      rw [if_pos (by simp), hres]
      simp only [Option.some_bind]
      rw [hres]
      rfl
    | unitVal => simp [wellTypedPayload] at hwt
    | tupleVal _ => simp [wellTypedPayload] at hwt

theorem foldl_append_concatMap {α β : Type} (f : α → List β) :
    ∀ (l : List α) (init : List β),
      List.foldl (fun acc v => acc ++ f v) init l = init ++ concatMapL f l
  | [], init => by simp [concatMapL]
  | a :: as, init => by
    rw [List.foldl_cons, foldl_append_concatMap f as (init ++ f a)]
    simp [concatMapL]

theorem outStructs_append (a b : List OutItem) :
    outStructs (a ++ b) = outStructs a ++ outStructs b := by
  simp [outStructs]

theorem outImpls_append (a b : List OutItem) :
    outImpls (a ++ b) = outImpls a ++ outImpls b := by
  simp [outImpls]

/-- Shape of the per-variant output when the variant's `variant_attrs`
attribute (if any) parses: the struct, then (unless `no_impl`) the
conversion block. -/
theorem processVariant_eq (cfg : ExtractVariant) (item_enum : ItemEnum) (p s : String)
    (enumPath : List String) (v : Variant) (h : variantAttrsOk v = true) :
    processVariant cfg item_enum p s enumPath v =
      OutItem.structOut (resolvedStruct p s item_enum v) ::
        (if cfg.no_impl = false then
          [OutItem.implsOut
            (impl_variant (resolvedStruct p s item_enum v) enumPath (mkVariantNameOpt p s v))]
        else []) := by
  cases hf : findVariantAttrsAttr v with
  | none =>
    cases hni : cfg.no_impl <;>
      simp [processVariant, resolvedStruct, hf, hni]
  | some a =>
    cases hp : parseArgsVariantAttrs a.tokens with
    | error e =>
      exfalso
      have hfalse : variantAttrsOk v = false := by
        simp [variantAttrsOk, hf, hp]
      rw [hfalse] at h
      exact Bool.false_ne_true h
    | ok extra =>
      cases hni : cfg.no_impl <;>
        simp [processVariant, resolvedStruct, hf, hp, hni]

/-- Shape of the whole `extract_variant` output on a non-generic enum with
successfully parsed attribute arguments. -/
theorem extract_variant_eq (attrArgs : List Tok) (item_enum : ItemEnum) (cfg : ExtractVariant)
    (hg : item_enum.hasGenerics = false) (hp : parseExtractVariant attrArgs = Except.ok cfg) :
    extract_variant attrArgs item_enum =
      OutItem.enumOut item_enum ::
        concatMapL
          (processVariant cfg item_enum (pfxStr cfg) (sfxStr cfg) [item_enum.ident.name])
          item_enum.variants := by
  unfold extract_variant
  rw [hg, hp]
  simp [foldl_append_concatMap]

theorem outStructs_concatMap (cfg : ExtractVariant) (item_enum : ItemEnum) (p s : String)
    (enumPath : List String) :
    ∀ l : List Variant, l.all variantAttrsOk = true →
      outStructs (concatMapL (processVariant cfg item_enum p s enumPath) l) =
        l.map (resolvedStruct p s item_enum)
  | [], _ => rfl
  | v :: vs, h => by
    rw [List.all_cons, Bool.and_eq_true] at h
    have hrest := outStructs_concatMap cfg item_enum p s enumPath vs h.2
    rw [show concatMapL (processVariant cfg item_enum p s enumPath) (v :: vs) =
        processVariant cfg item_enum p s enumPath v ++
          concatMapL (processVariant cfg item_enum p s enumPath) vs from rfl]
    rw [outStructs_append, hrest, processVariant_eq cfg item_enum p s enumPath v h.1]
    cases hni : cfg.no_impl <;> simp [hni, outStructs]

theorem outImpls_concatMap (cfg : ExtractVariant) (item_enum : ItemEnum) (p s : String)
    (enumPath : List String) :
    ∀ l : List Variant, l.all variantAttrsOk = true →
      outImpls (concatMapL (processVariant cfg item_enum p s enumPath) l) =
        if cfg.no_impl = false then
          l.map fun v =>
            impl_variant (resolvedStruct p s item_enum v) enumPath (mkVariantNameOpt p s v)
        else []
  | [], _ => by cases hni : cfg.no_impl <;> simp [hni, concatMapL, outImpls]
  | v :: vs, h => by
    rw [List.all_cons, Bool.and_eq_true] at h
    have hrest := outImpls_concatMap cfg item_enum p s enumPath vs h.2
    rw [show concatMapL (processVariant cfg item_enum p s enumPath) (v :: vs) =
        processVariant cfg item_enum p s enumPath v ++
          concatMapL (processVariant cfg item_enum p s enumPath) vs from rfl]
    rw [outImpls_append, hrest, processVariant_eq cfg item_enum p s enumPath v h.1]
    cases hni : cfg.no_impl <;> simp [hni, outImpls]

/-- The identifier of an emitted struct: always the affixed name carrying
the base variant identifier's span. -/
theorem resolvedStruct_ident (p s : String) (item_enum : ItemEnum) (v : Variant) :
    (resolvedStruct p s item_enum v).ident = ⟨p ++ v.ident.name ++ s, v.ident.span⟩ := by
  unfold resolvedStruct generate_variant
  split
  · rfl
  · split <;> rfl

/-- The fields of an emitted struct: the variant's fields, verbatim. -/
theorem resolvedStruct_fields (p s : String) (item_enum : ItemEnum) (v : Variant) :
    (resolvedStruct p s item_enum v).fields = v.fields := by
  unfold resolvedStruct generate_variant
  split
  · rfl
  · split <;> rfl

/-- Evaluation of the `ExtractVariant` parse loop on a juxtaposed sequence
of recognized keys followed by anything: every key is consumed (in order,
each updating the configuration) with no separator expected. -/
theorem parseEVLoop_keys :
    ∀ (ks : List KeySpec) (rest : List Tok) (cfg : ExtractVariant),
      parseEVLoop (concatMapL KeySpec.toks ks ++ rest) cfg =
        parseEVLoop rest (ks.foldl applyKey cfg)
  | [], rest, cfg => rfl
  | k :: ks, rest, cfg => by
    cases k with
    | pfxK sp a =>
      rw [show concatMapL KeySpec.toks (KeySpec.pfxK sp a :: ks) ++ rest =
          Tok.ident ⟨"prefix", sp⟩ :: Tok.group Delim.paren [Tok.ident a] ::
            (concatMapL KeySpec.toks ks ++ rest) from by simp [concatMapL, KeySpec.toks]]
      have hstep :
          parseEVLoop
              (Tok.ident ⟨"prefix", sp⟩ :: Tok.group Delim.paren [Tok.ident a] ::
                (concatMapL KeySpec.toks ks ++ rest)) cfg =
            parseEVLoop (concatMapL KeySpec.toks ks ++ rest) { cfg with pfx := some a } := by
        conv_lhs => rw [parseEVLoop.eq_def]
        simp [parseInnerIdent]
      rw [hstep, parseEVLoop_keys ks rest { cfg with pfx := some a }]
      rfl
    | sfxK sp a =>
      rw [show concatMapL KeySpec.toks (KeySpec.sfxK sp a :: ks) ++ rest =
          Tok.ident ⟨"suffix", sp⟩ :: Tok.group Delim.paren [Tok.ident a] ::
            (concatMapL KeySpec.toks ks ++ rest) from by simp [concatMapL, KeySpec.toks]]
      have hstep :
          parseEVLoop
              (Tok.ident ⟨"suffix", sp⟩ :: Tok.group Delim.paren [Tok.ident a] ::
                (concatMapL KeySpec.toks ks ++ rest)) cfg =
            parseEVLoop (concatMapL KeySpec.toks ks ++ rest) { cfg with sfx := some a } := by
        conv_lhs => rw [parseEVLoop.eq_def]
        simp [parseInnerIdent]
      rw [hstep, parseEVLoop_keys ks rest { cfg with sfx := some a }]
      rfl
    | noImplK sp =>
      rw [show concatMapL KeySpec.toks (KeySpec.noImplK sp :: ks) ++ rest =
          Tok.ident ⟨"no_impl", sp⟩ :: (concatMapL KeySpec.toks ks ++ rest) from by
            simp [concatMapL, KeySpec.toks]]
      have hstep :
          parseEVLoop (Tok.ident ⟨"no_impl", sp⟩ :: (concatMapL KeySpec.toks ks ++ rest)) cfg =
            parseEVLoop (concatMapL KeySpec.toks ks ++ rest) { cfg with no_impl := true } := by
        conv_lhs => rw [parseEVLoop.eq_def]
        simp
      rw [hstep, parseEVLoop_keys ks rest { cfg with no_impl := true }]
      rfl

theorem parseExtractVariant_group (inner : List Tok) :
    parseExtractVariant [Tok.group Delim.paren inner] = parseEVLoop inner defaultEV := by
  cases h : parseEVLoop inner defaultEV <;> simp [parseExtractVariant, h]

theorem outStructs_enum_cons (e : ItemEnum) (l : List OutItem) :
    outStructs (OutItem.enumOut e :: l) = outStructs l := rfl

theorem outImpls_enum_cons (e : ItemEnum) (l : List OutItem) :
    outImpls (OutItem.enumOut e :: l) = outImpls l := rfl

theorem string_append_nil (s : String) : s ++ "" = s := by
  cases s with
  | mk d =>
    show String.mk (d ++ []) = String.mk d
    rw [List.append_nil]

theorem string_nil_append (s : String) : "" ++ s = s := rfl

/-- C1: for every generated or linked record with conversions emitted
(any struct, enum path, and optional variant name handed to
`impl_variant`) and every well-typed record value `r`, the total
record-to-union conversion produces the union value of the named
alternative carrying `r`, and the fallible union-to-record conversion maps
that union value back to `Ok r`, every field unchanged.  The
well-formedness hypotheses (distinct binders, well-typed payload) are
guaranteed by Rust's type system for any compiling program. -/
theorem c1_roundtrip {α : Type} (strct : ItemStruct) (enumPath : List String)
    (vno : Option Ident) (r : PayloadVal α)
    (hnd : (fieldsBinders strct.fields).Nodup)
    (hwt : wellTypedPayload strct.fields r = true) :
    (impl_variant strct enumPath vno).fromFn r =
      some ⟨(vno.getD strct.ident).name, r⟩ ∧
    (impl_variant strct enumPath vno).tryFromFn
        (⟨(vno.getD strct.ident).name, r⟩ : EnumVal α) = Except.ok r := by
  have hconv := convPayload_id strct.fields r hnd hwt
  constructor
  · simp [VariantImpls.fromFn, impl_variant, hconv]
  · simp [VariantImpls.tryFromFn, impl_variant, hconv]

/-- Witness for C1 at the enum of the crate's own example:
`Variant3 { field1, field2 }` with an integer-valued record. -/
theorem c1_roundtrip_witness :
    (fieldsBinders strctV3.fields).Nodup ∧
    wellTypedPayload strctV3.fields rV3 = true ∧
    ((impl_variant strctV3 ["MyEnum"] none).fromFn rV3 =
        some ⟨"Variant3", rV3⟩ ∧
      (impl_variant strctV3 ["MyEnum"] none).tryFromFn (⟨"Variant3", rV3⟩ : EnumVal Int) =
        Except.ok rV3) :=
  ⟨by decide, by rfl, c1_roundtrip strctV3 ["MyEnum"] none rV3 (by decide) (by rfl)⟩

/-- C2: the derived union-to-record conversion succeeds exactly when the
union value's active alternative is the named one, and on any other
alternative it returns the original union value unchanged as the error. -/
theorem c2_tryfrom_characterization {α : Type} (strct : ItemStruct) (enumPath : List String)
    (vno : Option Ident) (u : EnumVal α)
    (hnd : (fieldsBinders strct.fields).Nodup)
    (hwt : u.variant = (vno.getD strct.ident).name →
      wellTypedPayload strct.fields u.payload = true) :
    (exceptIsOk ((impl_variant strct enumPath vno).tryFromFn u) = true ↔
      u.variant = (vno.getD strct.ident).name) ∧
    (u.variant ≠ (vno.getD strct.ident).name →
      (impl_variant strct enumPath vno).tryFromFn u = Except.error u) := by
  by_cases h : u.variant = (vno.getD strct.ident).name
  · have hconv := convPayload_id strct.fields u.payload hnd (hwt h)
    constructor
    · constructor
      · intro _
        exact h
      · intro _
        simp [VariantImpls.tryFromFn, impl_variant, h, hconv, exceptIsOk]
    · intro hne
      exact absurd h hne
  · constructor
    · constructor
      · intro hok
        exfalso
        simp [VariantImpls.tryFromFn, impl_variant, h, exceptIsOk] at hok
      · intro heq
        exact absurd heq h
    · intro _
      simp [VariantImpls.tryFromFn, impl_variant, h]

/-- Witness for C2: converting a `Variant2` union value towards the
`Variant3` record fails and hands back the value unchanged. -/
theorem c2_tryfrom_characterization_witness :
    (fieldsBinders strctV3.fields).Nodup ∧
    (uOther.variant = ((none : Option Ident).getD strctV3.ident).name →
      wellTypedPayload strctV3.fields uOther.payload = true) ∧
    ((exceptIsOk ((impl_variant strctV3 ["MyEnum"] none).tryFromFn uOther) = true ↔
        uOther.variant = ((none : Option Ident).getD strctV3.ident).name) ∧
      (uOther.variant ≠ ((none : Option Ident).getD strctV3.ident).name →
        (impl_variant strctV3 ["MyEnum"] none).tryFromFn uOther = Except.error uOther)) :=
  ⟨by decide, by decide,
    c2_tryfrom_characterization strctV3 ["MyEnum"] none uOther (by decide) (by decide)⟩

/-- Counterexample for C3: the configuration `(prefix(A) prefix(B))`
declares `prefix` twice at the same scope, yet the configuration parser
accepts it (keeping the second declaration) instead of failing with a
duplicate-declaration error. -/
theorem c3_counterexample :
    parseExtractVariant
        [Tok.group Delim.paren
          [Tok.ident ⟨"prefix", ⟨1⟩⟩, Tok.group Delim.paren [Tok.ident ⟨"A", ⟨2⟩⟩],
           Tok.ident ⟨"prefix", ⟨3⟩⟩, Tok.group Delim.paren [Tok.ident ⟨"B", ⟨4⟩⟩]]] =
      Except.ok ⟨some ⟨"B", ⟨4⟩⟩, none, false⟩ := by
  rfl

/-- C3 amended: the compiled configuration parser performs no duplicate
detection: a repeated (juxtaposed) `prefix` declaration is accepted with
the last occurrence winning, and a single declaration is likewise
accepted.  (Duplicate-declaration errors exist only in the disabled
prototype module `src/extract_variant.rs`.) -/
theorem c3_duplicate_accepted_last_wins (s1 s2 sa sb : Span) (a b : String) :
    parseExtractVariant
        [Tok.group Delim.paren
          (KeySpec.toks (KeySpec.pfxK s1 ⟨a, sa⟩) ++ KeySpec.toks (KeySpec.pfxK s2 ⟨b, sb⟩))] =
      Except.ok ⟨some ⟨b, sb⟩, none, false⟩ ∧
    parseExtractVariant [Tok.group Delim.paren (KeySpec.toks (KeySpec.pfxK s1 ⟨a, sa⟩))] =
      Except.ok ⟨some ⟨a, sa⟩, none, false⟩ := by
  constructor
  · rw [show KeySpec.toks (KeySpec.pfxK s1 ⟨a, sa⟩) ++ KeySpec.toks (KeySpec.pfxK s2 ⟨b, sb⟩) =
        concatMapL KeySpec.toks [KeySpec.pfxK s1 ⟨a, sa⟩, KeySpec.pfxK s2 ⟨b, sb⟩] ++ [] from by
          simp [concatMapL]]
    rw [parseExtractVariant_group, parseEVLoop_keys]
    rfl
  · rw [show KeySpec.toks (KeySpec.pfxK s1 ⟨a, sa⟩) =
        concatMapL KeySpec.toks [KeySpec.pfxK s1 ⟨a, sa⟩] ++ [] from by simp [concatMapL]]
    rw [parseExtractVariant_group, parseEVLoop_keys]
    rfl

/-- C10: a comma between recognized configuration keys makes the
configuration parse fail (the loop re-enters expecting an identifier and
meets the comma), while any juxtaposed sequence of recognized keys with no
separator is accepted, folding the keys into the configuration in order. -/
theorem c10_comma_between_keys_rejected (ks : List KeySpec) (rest : List Tok) :
    parseExtractVariant
        [Tok.group Delim.paren (concatMapL KeySpec.toks ks ++ Tok.punct ',' :: rest)] =
      Except.error ("expected identifier") ∧
    parseExtractVariant [Tok.group Delim.paren (concatMapL KeySpec.toks ks)] =
      Except.ok (ks.foldl applyKey defaultEV) := by
  constructor
  · rw [parseExtractVariant_group, parseEVLoop_keys]
    rfl
  · rw [show concatMapL KeySpec.toks ks = concatMapL KeySpec.toks ks ++ [] from by simp]
    rw [parseExtractVariant_group, parseEVLoop_keys]
    rfl

/-- Counterexample for C4: an alternative marked `#[exclude]` still gets a
Generated Record and a conversion block — the compiled pass never looks at
`exclude`. -/
theorem c4_counterexample :
    (v4ex.attrs.map fun a => a.path) = [["exclude"]] ∧
    (outStructs (extract_variant [] e4ex)).map (fun st => st.ident.name) = ["Variant1"] ∧
    (outImpls (extract_variant [] e4ex)).map (fun vi => vi.variantIdent.name) = ["Variant1"] :=
  ⟨rfl, rfl, rfl⟩

/-- C4 amended: the compiled derive-from-union pass ignores `exclude`
markers entirely: every alternative of the union, marked or not, yields
exactly one Generated Record, in declaration order, and the union is
re-emitted unchanged at the head of the output.  (Exclusion is implemented
only in the disabled prototype module.) -/
theorem c4_exclude_has_no_effect (attrArgs : List Tok) (item_enum : ItemEnum)
    (cfg : ExtractVariant) (hg : item_enum.hasGenerics = false)
    (hp : parseExtractVariant attrArgs = Except.ok cfg)
    (ha : item_enum.variants.all variantAttrsOk = true) :
    (extract_variant attrArgs item_enum).head? = some (OutItem.enumOut item_enum) ∧
    (outStructs (extract_variant attrArgs item_enum)).map (fun st => st.ident.name) =
      item_enum.variants.map (fun v => pfxStr cfg ++ v.ident.name ++ sfxStr cfg) := by
  rw [extract_variant_eq attrArgs item_enum cfg hg hp]
  constructor
  · rfl
  · rw [outStructs_enum_cons,
      outStructs_concatMap cfg item_enum (pfxStr cfg) (sfxStr cfg) [item_enum.ident.name]
        item_enum.variants ha,
      List.map_map]
    simp [Function.comp, resolvedStruct_ident]

/-- Witness for C4 amended, at the enum whose only alternative carries
`#[exclude]`. -/
theorem c4_exclude_has_no_effect_witness :
    e4ex.hasGenerics = false ∧
    parseExtractVariant [] = Except.ok defaultEV ∧
    e4ex.variants.all variantAttrsOk = true ∧
    ((extract_variant [] e4ex).head? = some (OutItem.enumOut e4ex) ∧
      (outStructs (extract_variant [] e4ex)).map (fun st => st.ident.name) =
        e4ex.variants.map (fun v => pfxStr defaultEV ++ v.ident.name ++ sfxStr defaultEV)) :=
  ⟨rfl, rfl, rfl, c4_exclude_has_no_effect [] e4ex defaultEV rfl rfl rfl⟩

/-- Counterexample for C5: the generated record's field keeps the
alternative's (inherited, module-private) visibility — it is not made
public. -/
theorem c5_counterexample :
    (outStructs (extract_variant [] e5ex)).map (fun st => fieldsVises st.fields) =
      [[Visibility.inherited]] ∧
    Visibility.inherited ≠ Visibility.pub :=
  ⟨rfl, by decide⟩

/-- C5 amended: the Generated Record's fields are copied from the
alternative verbatim — same shape, names, types and order, and also the
same (inherited) visibility: no field is promoted to public. -/
theorem c5_fields_copied_verbatim (attrArgs : List Tok) (item_enum : ItemEnum)
    (cfg : ExtractVariant) (hg : item_enum.hasGenerics = false)
    (hp : parseExtractVariant attrArgs = Except.ok cfg)
    (ha : item_enum.variants.all variantAttrsOk = true) :
    (outStructs (extract_variant attrArgs item_enum)).map (fun st => st.fields) =
      item_enum.variants.map (fun v => v.fields) := by
  rw [extract_variant_eq attrArgs item_enum cfg hg hp, outStructs_enum_cons,
    outStructs_concatMap cfg item_enum (pfxStr cfg) (sfxStr cfg) [item_enum.ident.name]
      item_enum.variants ha,
    List.map_map]
  simp [Function.comp, resolvedStruct_fields]

/-- Witness for C5 amended at a one-variant enum with a named field. -/
theorem c5_fields_copied_verbatim_witness :
    e5ex.hasGenerics = false ∧
    parseExtractVariant [] = Except.ok defaultEV ∧
    e5ex.variants.all variantAttrsOk = true ∧
    (outStructs (extract_variant [] e5ex)).map (fun st => st.fields) =
      e5ex.variants.map (fun v => v.fields) :=
  ⟨rfl, rfl, rfl, c5_fields_copied_verbatim [] e5ex defaultEV rfl rfl rfl⟩

/-- C6 (code bug): evaluation at the failing input.  The enum carries
`#[derive(Debug)]` and its variant carries a `doc` and a `serde`
attribute; the compiled code copies every variant attribute verbatim onto
the record (the `serde` attribute leaks) and inherits no `derive`
attribute from the enum — contradicting the crate's own documentation of
the derive shortcut. -/
theorem c6_attr_divergence :
    (e6ex.attrs.map fun a => a.path) = [["derive"]] ∧
    (outStructs (extract_variant [] e6ex)).map (fun st => st.attrs.map fun a => a.path) =
      [[["doc"], ["serde"]]] :=
  ⟨rfl, rfl⟩

/-- C7 (code bug): evaluation at the failing input.  The documented
one-argument form `#[variant_of(MyEnum)]` is rejected: the attribute
arguments reach the parser without surrounding parentheses, which
`parenthesized!` demands; and even on a parenthesized rendering of the
arguments the parser still requires a comma after the path, so the
one-argument form can never parse. -/
theorem c7_variant_of_rejects_documented_form :
    parseVariantOf [Tok.ident ⟨"MyEnum", ⟨70⟩⟩] = Except.error ("expected parentheses") ∧
    parseVariantOfInner [Tok.ident ⟨"MyEnum", ⟨70⟩⟩] = Except.error ("expected comma") ∧
    variant_of [Tok.ident ⟨"MyEnum", ⟨70⟩⟩] strct7 =
      [OutItem.errorOut ("expected parentheses")] :=
  ⟨rfl, rfl, rfl⟩

/-- C8: when the parsed configuration carries the `no_impl` flag, the pass
emits no conversion block for any alternative while still producing every
Generated Record, in order. -/
theorem c8_no_impl_suppression (attrArgs : List Tok) (item_enum : ItemEnum)
    (cfg : ExtractVariant) (hg : item_enum.hasGenerics = false)
    (hp : parseExtractVariant attrArgs = Except.ok cfg)
    (hni : cfg.no_impl = true)
    (ha : item_enum.variants.all variantAttrsOk = true) :
    outImpls (extract_variant attrArgs item_enum) = [] ∧
    (outStructs (extract_variant attrArgs item_enum)).map (fun st => st.ident.name) =
      item_enum.variants.map (fun v => pfxStr cfg ++ v.ident.name ++ sfxStr cfg) := by
  rw [extract_variant_eq attrArgs item_enum cfg hg hp]
  constructor
  · rw [outImpls_enum_cons,
      outImpls_concatMap cfg item_enum (pfxStr cfg) (sfxStr cfg) [item_enum.ident.name]
        item_enum.variants ha]
    simp [hni]
  · rw [outStructs_enum_cons,
      outStructs_concatMap cfg item_enum (pfxStr cfg) (sfxStr cfg) [item_enum.ident.name]
        item_enum.variants ha,
      List.map_map]
    simp [Function.comp, resolvedStruct_ident]

/-- Witness for C8 at a two-variant enum with the `no_impl` flag set. -/
theorem c8_no_impl_suppression_witness :
    e8ex.hasGenerics = false ∧
    parseExtractVariant attrToks8 = Except.ok ⟨none, none, true⟩ ∧
    (⟨none, none, true⟩ : ExtractVariant).no_impl = true ∧
    e8ex.variants.all variantAttrsOk = true ∧
    (outImpls (extract_variant attrToks8 e8ex) = [] ∧
      (outStructs (extract_variant attrToks8 e8ex)).map (fun st => st.ident.name) =
        e8ex.variants.map
          (fun v => pfxStr ⟨none, none, true⟩ ++ v.ident.name ++ sfxStr ⟨none, none, true⟩)) :=
  ⟨rfl, rfl, rfl, rfl, c8_no_impl_suppression attrToks8 e8ex ⟨none, none, true⟩ rfl rfl rfl rfl⟩

/-- Counterexample for C9: with `prefix(Pre)` supplied by an attribute
whose tokens are anchored at span 5, the generated record's identifier
still carries the variant identifier's span 9 — the position does not
belong to the attribute declaration that supplied the customization. -/
theorem c9_counterexample :
    (outStructs (extract_variant attrToks9 e9ex)).map (fun st => st.ident) =
      [⟨"PreV", ⟨9⟩⟩] ∧
    (⟨9⟩ : Span) ≠ (⟨5⟩ : Span) :=
  ⟨rfl, by decide⟩

/-- C9 amended: name synthesis concatenates prefix, base text and suffix,
and the resulting identifier always carries the base (variant)
identifier's source position — also when a prefix or suffix was applied;
with both empty the result is the base identifier itself. -/
theorem c9_ident_span_always_base (attrArgs : List Tok) (item_enum : ItemEnum)
    (cfg : ExtractVariant) (hg : item_enum.hasGenerics = false)
    (hp : parseExtractVariant attrArgs = Except.ok cfg)
    (ha : item_enum.variants.all variantAttrsOk = true) :
    (outStructs (extract_variant attrArgs item_enum)).map (fun st => st.ident) =
      item_enum.variants.map
        (fun v => (⟨pfxStr cfg ++ v.ident.name ++ sfxStr cfg, v.ident.span⟩ : Ident)) ∧
    (pfxStr cfg = "" → sfxStr cfg = "" →
      (outStructs (extract_variant attrArgs item_enum)).map (fun st => st.ident) =
        item_enum.variants.map (fun v => v.ident)) := by
  have hmain :
      (outStructs (extract_variant attrArgs item_enum)).map (fun st => st.ident) =
        item_enum.variants.map
          (fun v => (⟨pfxStr cfg ++ v.ident.name ++ sfxStr cfg, v.ident.span⟩ : Ident)) := by
    rw [extract_variant_eq attrArgs item_enum cfg hg hp, outStructs_enum_cons,
      outStructs_concatMap cfg item_enum (pfxStr cfg) (sfxStr cfg) [item_enum.ident.name]
        item_enum.variants ha,
      List.map_map]
    simp [Function.comp, resolvedStruct_ident]
  refine ⟨hmain, fun hp0 hs0 => ?_⟩
  rw [hmain, hp0, hs0]
  have hbase : ∀ v : Variant, (⟨"" ++ v.ident.name ++ "", v.ident.span⟩ : Ident) = v.ident := by
    intro v
    rw [string_nil_append, string_append_nil]
  simp only [hbase]

/-- Witness for C9 amended at the prefixed one-variant enum. -/
theorem c9_ident_span_always_base_witness :
    e9ex.hasGenerics = false ∧
    parseExtractVariant attrToks9 = Except.ok ⟨some ⟨"Pre", ⟨5⟩⟩, none, false⟩ ∧
    e9ex.variants.all variantAttrsOk = true ∧
    ((outStructs (extract_variant attrToks9 e9ex)).map (fun st => st.ident) =
        e9ex.variants.map
          (fun v =>
            (⟨pfxStr ⟨some ⟨"Pre", ⟨5⟩⟩, none, false⟩ ++ v.ident.name ++
                sfxStr ⟨some ⟨"Pre", ⟨5⟩⟩, none, false⟩, v.ident.span⟩ : Ident)) ∧
      (pfxStr ⟨some ⟨"Pre", ⟨5⟩⟩, none, false⟩ = "" →
        sfxStr ⟨some ⟨"Pre", ⟨5⟩⟩, none, false⟩ = "" →
        (outStructs (extract_variant attrToks9 e9ex)).map (fun st => st.ident) =
          e9ex.variants.map (fun v => v.ident))) :=
  ⟨rfl, rfl, rfl,
    c9_ident_span_always_base attrToks9 e9ex ⟨some ⟨"Pre", ⟨5⟩⟩, none, false⟩ rfl rfl rfl⟩
